import Mathlib

/-!
# Verification of the ERC20 transfer indexer (`src/main.rs`)

Shallow embedding of the scan–filter–decode–batch pipeline of the indexer.
The chain client and the document store are external collaborators: they are
modelled as data (a `Chain` record supplying the head height, the blocks and
the per-call bulk-insert outcomes) and as an observation log on the scan state
(the list of issued bulk-insert payloads).

Machine integers are modelled as `Nat`; the one place where u64 overflow is
semantically relevant (the `head - 50` stop-bound subtraction) is modelled
with explicit wrapping arithmetic (`u64sub`).

Addresses (H160) and topics (H256) are modelled as natural numbers below
`2^160` / `2^256`; the serialized forms the pipeline compares are produced by
fixed-width lowercase hex rendering, mirroring `to_string` of `main.rs`
(serde serialization of H160/H256 with the quotes stripped, which yields
`0x`-prefixed lowercase hex).
-/

/-- Lowercase hex digit character for `d < 16` (`'0'..'9'`, `'a'..'f'`). -/
def hexDigitChar (d : Nat) : Char :=
  if d < 10 then Char.ofNat (48 + d) else Char.ofNat (87 + d)

/-- Numeric value of a lowercase hex digit character; inverse of `hexDigitChar`. -/
def hexCharVal (c : Char) : Nat :=
  if 97 ≤ c.toNat then c.toNat - 87 else c.toNat - 48

/-- Decimal digit character for `d < 10`. -/
def decDigitChar (d : Nat) : Char := Char.ofNat (48 + d)

/-- Numeric value of a decimal digit character; inverse of `decDigitChar`. -/
def decCharVal (c : Char) : Nat := c.toNat - 48

/-- Big-endian digit expansion of `n` in base `base`, padded to exactly
`w` digits (most significant first). -/
def natToBaseBE (base : Nat) : Nat → Nat → List Nat
  | 0, _ => []
  | w + 1, n => natToBaseBE base w (n / base) ++ [n % base]

/-- Fold a big-endian digit list back into a number. -/
def baseBEToNat (base : Nat) (l : List Nat) : Nat :=
  l.foldl (fun a d => a * base + d) 0

/-- Decimal digit expansion of `n`, most significant first, no leading zeros
(`[]` for `0`); `fuel` bounds the recursion depth and is adequate whenever
`n < 10 ^ fuel`. -/
def natToDecAux : Nat → Nat → List Nat
  | 0, _ => []
  | fuel + 1, n =>
    if n < 10 then [n] else natToDecAux fuel (n / 10) ++ [n % 10]

/-- Render `n` in base-10 decimal, as Rust's `Display for U256` does.
The fuel `80` is adequate for every 256-bit value (`2^256 < 10^78`). -/
def natToDec (n : Nat) : String :=
  String.mk ((natToDecAux 80 n).map decDigitChar)

/-- Parse a decimal string back to a number; inverse of `natToDec`. -/
def decStringToNat (s : String) : Nat :=
  s.data.foldl (fun a c => a * 10 + decCharVal c) 0

/-- Fixed-width lowercase hex rendering (no `0x` prefix), `w` hex digits. -/
def hexFixed (w n : Nat) : String :=
  String.mk ((natToBaseBE 16 w n).map hexDigitChar)

/-- Parse a lowercase hex string back to a number; inverse of `hexFixed`. -/
def hexStringToNat (s : String) : Nat :=
  s.data.foldl (fun a c => a * 16 + hexCharVal c) 0

/-- `to_string` of `main.rs` applied to an H160 transaction/log address:
serde serialization with the quotes stripped, i.e. `0x` + 40 lowercase hex
digits. -/
def to_string_address (a : Nat) : String := "0x" ++ hexFixed 40 a

/-- `to_string` of `main.rs` applied to an H256 log topic: `0x` + 64
lowercase hex digits. -/
def to_string_topic (t : Nat) : String := "0x" ++ hexFixed 64 t

/-- Wrapping u64 subtraction, the semantics of `a - b` on `u64` in a release
build (`b ≤ 2^64` assumed, as for the literal 50). -/
def u64sub (a b : Nat) : Nat := (a + 2 ^ 64 - b) % 2 ^ 64

/-! ## Constants of `main.rs` -/

/-- `ERC_TRANSFER_TOPIC` of `main.rs`: keccak-256 of
`Transfer(address,address,uint256)`. -/
def ERC_TRANSFER_TOPIC : String :=
  "0xddf252ad1be2c89b69c2b068fc378daa952ba7f163c4a11628f55a4df523b3ef"

/-- The Transfer signature hash as a 256-bit number; its hex rendering is
`ERC_TRANSFER_TOPIC` (proved below in `to_string_transferTopic`). -/
def transferTopic : Nat :=
  0xddf252ad1be2c89b69c2b068fc378daa952ba7f163c4a11628f55a4df523b3ef

/-- `MONGO_BATCH_SIZE` of `main.rs`. -/
def MONGO_BATCH_SIZE : Nat := 15000

/-- The hardcoded transaction-stage allow-list `contracts_of_interest`. -/
def contracts_of_interest : List String :=
  ["0xc99a6a985ed2cac1ef41640596c5a5f9f4e19ef5",
   "0xed4a9f48a62fb6fdcfb45bb00c9f61d1a436e58c",
   "0xa8754b9fa15fc18bb59458815510e40a12cd2014"]

/-- `ContractType` of `main.rs`. -/
inductive ContractType where
  | ERC20
deriving DecidableEq, Repr

/-- `Contract` of `main.rs` (registry metadata). -/
structure Contract where
  name : String
  decimals : Nat
  erc : ContractType
  address : String
deriving DecidableEq, Repr

/-- The registry `map` of `main.rs` as a list of entries (the code's HashMap
is only ever consulted through `values()` for membership, so the order is
immaterial). -/
def registry : List Contract :=
  [⟨"WETH", 18, ContractType.ERC20, "0xc99a6a985ed2cac1ef41640596c5a5f9f4e19ef5"⟩,
   ⟨"AXS", 18, ContractType.ERC20, "0xed4a9f48a62fb6fdcfb45bb00c9f61d1a436e58c"⟩,
   ⟨"SLP", 0, ContractType.ERC20, "0xa8754b9fa15fc18bb59458815510e40a12cd2014"⟩]

/-- The log-stage allow-list `contracts` of `main.rs`: registry entries whose
standard is ERC20, projected to their addresses. -/
def erc20Contracts : List String :=
  (registry.filter (fun c => c.erc = ContractType.ERC20)).map (fun c => c.address)

/-! ## Data model -/

/-- A receipt log entry: emitting address (H160 as `Nat`), topics (H256 as
`Nat`), raw data bytes. -/
structure Log where
  address : Nat
  topics : List Nat
  data : List Nat
deriving DecidableEq, Repr

/-- A transaction receipt. -/
structure Receipt where
  logs : List Log
deriving DecidableEq, Repr

/-- A transaction: optional recipient address, and its receipt (the chain
client's `transaction_receipt` lookup, keyed by the hash in the code, is
modelled by attaching the receipt to the transaction). -/
structure Tx where
  to_ : Option Nat
  receipt : Receipt
deriving DecidableEq, Repr

/-- A block with full transactions. -/
structure Block where
  timestamp : Nat
  transactions : List Tx
deriving DecidableEq, Repr

/-- `Transfer` of `main.rs` (the output record). `from` is a Lean keyword, so
the field is named `from_`. -/
structure Transfer where
  contract : String
  from_ : String
  to_ : String
  value : String
  timestamp : Nat
deriving DecidableEq, Repr

/-- The external collaborators: the chain client (head height, blocks by
height) and the store's per-call bulk-insert outcomes (`insertOk i` is the
success of the `i`-th bulk insert; the code discards it with `.ok()`). -/
structure Chain where
  head : Nat
  blocks : Nat → Option Block
  insertOk : Nat → Bool

/-- The mutable state of the outer loop, together with the observation log of
externally visible effects: `inserts` records each bulk-insert call's payload,
`receipt_fetches` counts receipt fetches, `processed` records the heights
processed. -/
structure ScanState where
  current_block : Nat
  transfer_storage : List Transfer
  total_transfers : Nat
  inserts : List (List Transfer)
  receipt_fetches : Nat
  processed : List Nat
deriving Repr

/-! ## Pipeline -/

/-- Modelled from the spec: `Event::parse_log` of the external `ethabi` crate
(no dependency manifest is present under `src/`, so the crate itself is not
part of the sources). Per §4.4 of the spec, a log decodes against the fixed
`Transfer(address indexed from, address indexed to, uint256 value)` schema:
the topics must be exactly `[signature, from, to]` with the signature equal to
the Transfer hash, `from`/`to` are the low 20 bytes of topics 1 and 2, and
`value` is the 32-byte big-endian unsigned integer in the data field. -/
def parse_log (l : Log) : Option (Nat × Nat × Nat) :=
  match l.topics with
  | [t0, t1, t2] =>
    if t0 = transferTopic ∧ l.data.length = 32 then
      some (t1 % 2 ^ 160, t2 % 2 ^ 160, baseBEToNat 256 l.data)
    else none
  | _ => none

/-- Modelled from the spec: the rendering of a decoded indexed address
parameter (§4.4: "as 20-byte addresses, hex-encoded, normalized without
surrounding quoting artifacts"): 40 lowercase hex digits. -/
def tokenAddrString (a : Nat) : String := hexFixed 40 a

/-- The receipt-log filter of `main.rs` lines 198–205: keep a log iff
`to_string(&x.topics[0]) == ERC_TRANSFER_TOPIC` and the emitting address is
in the ERC20 registry list. `x.topics[0]` on an empty topics array is an
out-of-bounds panic, modelled as `Except.error`. -/
def filterLogs (contracts : List String) : List Log → Except String (List Log)
  | [] => Except.ok []
  | l :: rest =>
    match l.topics with
    | [] => Except.error "index out of bounds: the len is 0 but the index is 0"
    | t0 :: _ =>
      match filterLogs contracts rest with
      | Except.error e => Except.error e
      | Except.ok tail =>
        if to_string_topic t0 == ERC_TRANSFER_TOPIC
            && contracts.contains (to_string_address l.address) then
          Except.ok (l :: tail)
        else
          Except.ok tail

/-- The decode loop of `main.rs` lines 207–225: each surviving log is decoded
with `parse_log` (`.unwrap()` on failure, modelled as `Except.error`) and a
`Transfer` is built whose `contract` is the transaction's recipient string,
whose `from`/`to`/`value` are the rendered decoded parameters and whose
timestamp is the block timestamp in milliseconds. -/
def decodeLogs (tx_to : String) (timestamp : Nat) :
    List Log → Except String (List Transfer)
  | [] => Except.ok []
  | l :: rest =>
    match parse_log l with
    | none => Except.error "called Option::unwrap on a None value"
    | some (f, t, v) =>
      match decodeLogs tx_to timestamp rest with
      | Except.error e => Except.error e
      | Except.ok tail =>
        Except.ok ({ contract := tx_to, from_ := tokenAddrString f,
                     to_ := tokenAddrString t, value := natToDec v,
                     timestamp := timestamp } :: tail)

/-- Per-transaction processing of `main.rs` lines 193–227: keep the
transaction iff it has a `to` address whose serialized form is in
`contracts_of_interest`; if kept, fetch the receipt (counted in the second
component), filter its logs, decode the survivors. -/
def processTx (timestamp : Nat) (tx : Tx) :
    Except String (List Transfer × Nat) :=
  match tx.to_ with
  | none => Except.ok ([], 0)
  | some a =>
    if contracts_of_interest.contains (to_string_address a) then
      match filterLogs erc20Contracts tx.receipt.logs with
      | Except.error e => Except.error e
      | Except.ok logs =>
        match decodeLogs (to_string_address a) timestamp logs with
        | Except.error e => Except.error e
        | Except.ok recs => Except.ok (recs, 1)
    else
      Except.ok ([], 0)

/-- Sequential processing of a block's transactions, concatenating the
produced records in order and summing the receipt fetches. -/
def processTxs (timestamp : Nat) : List Tx → Except String (List Transfer × Nat)
  | [] => Except.ok ([], 0)
  | tx :: rest =>
    match processTx timestamp tx with
    | Except.error e => Except.error e
    | Except.ok (r1, n1) =>
      match processTxs timestamp rest with
      | Except.error e => Except.error e
      | Except.ok (r2, n2) => Except.ok (r1 ++ r2, n1 + n2)

/-- `stream_stop_block` of `main.rs` line 177: the head height minus the
fixed confirmation lag of 50, with u64 wrapping subtraction. -/
def stream_stop_block (head : Nat) : Nat := u64sub head 50

/-- The flush branch of `main.rs` lines 236–242: when the buffer has reached
`MONGO_BATCH_SIZE` or the scan is stopping, add the buffer length to
`total_transfers`, issue one bulk insert with the whole buffer (the payload is
recorded in `inserts`; the store's result is discarded by `.ok()`), and clear
the buffer. -/
def flushStep (s : ScanState) (stop : Bool) : ScanState :=
  if decide (MONGO_BATCH_SIZE ≤ s.transfer_storage.length) || stop then
    { s with total_transfers := s.total_transfers + s.transfer_storage.length,
             inserts := s.inserts ++ [s.transfer_storage],
             transfer_storage := [] }
  else s

/-- One iteration of the outer loop before the flush: fetch the block at the
current height (panic if absent), process its transactions appending the
records to the buffer, and advance the height by one. -/
def scanStepCore (ch : Chain) (s : ScanState) : Except String ScanState :=
  match ch.blocks s.current_block with
  | none => Except.error "Failed to load block from provider"
  | some block =>
    match processTxs (block.timestamp * 1000) block.transactions with
    | Except.error e => Except.error e
    | Except.ok (recs, n) =>
      Except.ok { s with
        transfer_storage := s.transfer_storage ++ recs,
        receipt_fetches := s.receipt_fetches + n,
        processed := s.processed ++ [s.current_block],
        current_block := s.current_block + 1 }

/-- One full iteration of the outer loop of `main.rs` lines 169–249: process
the block, decide `stop` (the incremented height exceeds the stop bound),
flush if due, and report whether the loop breaks. -/
def scanStep (ch : Chain) (s : ScanState) : Except String (ScanState × Bool) :=
  match scanStepCore ch s with
  | Except.error e => Except.error e
  | Except.ok s' =>
    let stop : Bool := decide (stream_stop_block ch.head < s'.current_block)
    Except.ok (flushStep s' stop, stop)

/-- The outer loop, driven by explicit fuel (the loop of `main.rs` terminates
after `stream_stop_block + 1` iterations; `runScan` supplies adequate fuel). -/
def runAux (ch : Chain) : Nat → ScanState → Except String ScanState
  | 0, _ => Except.error "out of fuel"
  | fuel + 1, s =>
    match scanStep ch s with
    | Except.error e => Except.error e
    | Except.ok (s', stop) => if stop then Except.ok s' else runAux ch fuel s'

/-- The initial loop state of `main.rs` lines 162–167. -/
def initState : ScanState :=
  { current_block := 0, transfer_storage := [], total_transfers := 0,
    inserts := [], receipt_fetches := 0, processed := [] }

/-- The whole scan of `main.rs`: run the outer loop from height 0. -/
def runScan (ch : Chain) : Except String ScanState :=
  runAux ch (stream_stop_block ch.head + 2) initState

/-- A block at height `h` can be fetched and processed without a panic. -/
def blockOk (ch : Chain) (h : Nat) : Prop :=
  ∃ b out, ch.blocks h = some b ∧
    processTxs (b.timestamp * 1000) b.transactions = Except.ok out


/-- Modelled from the spec: a synthetic `Transfer(from, to, value)` log as in
the round-trip property of §8: topics `[TRANSFER_SIG, from, to]`, data the
32-byte big-endian encoding of `value`. -/
def encodeTransferLog (f t v : Nat) : Log :=
  { address := 0, topics := [transferTopic, f, t], data := natToBaseBE 256 32 v }

/-- `total_transfers` equals the total length of all issued bulk inserts. -/
def totalInv (s : ScanState) : Prop :=
  s.total_transfers = (s.inserts.map List.length).sum

/-! ## Concrete scenario data -/

/-- The WETH registry address as a number; its rendering is the first entry of
`contracts_of_interest`. -/
def wethAddr : Nat := 0xc99a6a985ed2cac1ef41640596c5a5f9f4e19ef5

/-- A log carrying a well-formed Transfer event emitted by the WETH contract:
`from = 1`, `to = 2`, `value = 5`. -/
def exampleLog : Log :=
  { address := wethAddr, topics := [transferTopic, 1, 2],
    data := List.replicate 31 0 ++ [5] }

/-- A transaction to the WETH contract whose receipt holds `exampleLog`. -/
def exampleTx : Tx :=
  { to_ := some wethAddr, receipt := { logs := [exampleLog] } }

/-- A block holding exactly `exampleTx`. -/
def exampleBlock : Block :=
  { timestamp := 1700000000, transactions := [exampleTx] }

/-- A chain serving `exampleBlock` at every height. -/
def exampleChain : Chain :=
  { head := 60, blocks := fun _ => some exampleBlock, insertOk := fun _ => true }

/-- A well-formed Transfer log emitted by an address outside the registry. -/
def strangerLog : Log :=
  { address := 0xdead, topics := [transferTopic, 1, 2],
    data := List.replicate 31 0 ++ [5] }

/-- A transaction to the WETH contract whose receipt's only log is emitted by
an unwatched address. -/
def strangerTx : Tx :=
  { to_ := some wethAddr, receipt := { logs := [strangerLog] } }

/-- A log with an empty topics array. -/
def emptyTopicsLog : Log := { address := wethAddr, topics := [], data := [] }

/-- A transaction to the WETH contract whose receipt holds a log with no
topics. -/
def emptyTopicsTx : Tx :=
  { to_ := some wethAddr, receipt := { logs := [emptyTopicsLog] } }

/-- A chain at head 1000 whose blocks are all empty. -/
def chain1000 : Chain :=
  { head := 1000, blocks := fun _ => some { timestamp := 0, transactions := [] },
    insertOk := fun _ => true }

/-- A chain at head 50 whose blocks are all empty. -/
def chainEmpty50 : Chain :=
  { head := 50, blocks := fun _ => some { timestamp := 0, transactions := [] },
    insertOk := fun _ => true }

/-- A chain at head 50 with empty blocks whose store rejects every insert. -/
def chainC9 : Chain :=
  { head := 50, blocks := fun _ => some { timestamp := 0, transactions := [] },
    insertOk := fun _ => false }

/-- A buffer of exactly `MONGO_BATCH_SIZE` records. -/
def fullBuffer : List Transfer :=
  List.replicate MONGO_BATCH_SIZE
    { contract := "", from_ := "", to_ := "", value := "0", timestamp := 0 }


/-! ## Rendering lemmas -/

theorem hexCharVal_hexDigitChar : ∀ d, d < 16 → hexCharVal (hexDigitChar d) = d := by
  decide

theorem decCharVal_decDigitChar : ∀ d, d < 10 → decCharVal (decDigitChar d) = d := by
  decide

theorem natToBaseBE_length (base : Nat) :
    ∀ w n, (natToBaseBE base w n).length = w := by
  intro w
  induction w with
  | zero => intro n; rfl
  | succ w ih => intro n; simp [natToBaseBE, ih]

theorem natToBaseBE_mem_lt (base : Nat) (hb : 0 < base) :
    ∀ w n d, d ∈ natToBaseBE base w n → d < base := by
  intro w
  induction w with
  | zero => intro n d hd; simp [natToBaseBE] at hd
  | succ w ih =>
    intro n d hd
    simp only [natToBaseBE, List.mem_append, List.mem_singleton] at hd
    rcases hd with hd | hd
    · exact ih _ _ hd
    · subst hd; exact Nat.mod_lt _ hb

theorem foldl_natToBaseBE (base : Nat) :
    ∀ w a n, n < base ^ w →
      (natToBaseBE base w n).foldl (fun x d => x * base + d) a = a * base ^ w + n := by
  intro w
  induction w with
  | zero =>
    intro a n hn
    have h0 : n = 0 := by simpa using hn
    subst h0
    simp [natToBaseBE]
  | succ w ih =>
    intro a n hn
    have hdiv : n / base < base ^ w := by
      apply Nat.div_lt_of_lt_mul
      calc n < base ^ w * base := by rw [← Nat.pow_succ]; exact hn
        _ = base * base ^ w := Nat.mul_comm _ _
    simp only [natToBaseBE, List.foldl_append, List.foldl_cons, List.foldl_nil]
    rw [ih a (n / base) hdiv]
    rw [Nat.pow_succ]
    have := Nat.div_add_mod n base
    ring_nf
    omega

/-- Transport a digit-list foldl across rendering to characters and back. -/
theorem foldl_map_inverse (base : Nat) (f : Nat → Char) (g : Char → Nat)
    (L : List Nat) (hfg : ∀ d ∈ L, g (f d) = d) :
    ∀ a, (L.map f).foldl (fun x c => x * base + g c) a
      = L.foldl (fun x d => x * base + d) a := by
  induction L with
  | nil => intro a; rfl
  | cons d rest ih =>
    intro a
    simp only [List.map_cons, List.foldl_cons]
    rw [hfg d (by simp)]
    exact ih (fun x hx => hfg x (by simp [hx])) _

theorem hexStringToNat_hexFixed (w n : Nat) (hn : n < 16 ^ w) :
    hexStringToNat (hexFixed w n) = n := by
  unfold hexStringToNat hexFixed
  show ((natToBaseBE 16 w n).map hexDigitChar).foldl (fun x c => x * 16 + hexCharVal c) 0 = n
  rw [foldl_map_inverse 16 hexDigitChar hexCharVal _
    (fun d hd => hexCharVal_hexDigitChar d (natToBaseBE_mem_lt 16 (by norm_num) w n d hd))]
  have := foldl_natToBaseBE 16 w 0 n hn
  simpa using this

theorem foldl_natToDecAux :
    ∀ fuel n a, n < 10 ^ fuel →
      (natToDecAux fuel n).foldl (fun x d => x * 10 + d) a
        = a * 10 ^ (natToDecAux fuel n).length + n := by
  intro fuel
  induction fuel with
  | zero =>
    intro n a hn
    interval_cases n
    simp [natToDecAux]
  | succ fuel ih =>
    intro n a hn
    by_cases h10 : n < 10
    · simp [natToDecAux, h10]
    · have hdiv : n / 10 < 10 ^ fuel := by
        apply Nat.div_lt_of_lt_mul
        calc n < 10 ^ fuel * 10 := by rw [← Nat.pow_succ]; exact hn
          _ = 10 * 10 ^ fuel := Nat.mul_comm _ _
      simp only [natToDecAux, if_neg h10, List.foldl_append, List.foldl_cons,
        List.foldl_nil, List.length_append, List.length_cons, List.length_nil]
      rw [ih (n / 10) a hdiv]
      have := Nat.div_add_mod n 10
      rw [Nat.pow_succ]
      ring_nf
      omega

theorem natToDecAux_mem_lt :
    ∀ fuel n d, d ∈ natToDecAux fuel n → d < 10 := by
  intro fuel
  induction fuel with
  | zero => intro n d hd; simp [natToDecAux] at hd
  | succ fuel ih =>
    intro n d hd
    by_cases h10 : n < 10
    · simp [natToDecAux, h10] at hd
      omega
    · simp only [natToDecAux, if_neg h10, List.mem_append, List.mem_singleton] at hd
      rcases hd with hd | hd
      · exact ih _ _ hd
      · subst hd; exact Nat.mod_lt _ (by norm_num)

theorem decStringToNat_natToDec (n : Nat) (hn : n < 10 ^ 80) :
    decStringToNat (natToDec n) = n := by
  unfold decStringToNat natToDec
  show ((natToDecAux 80 n).map decDigitChar).foldl (fun x c => x * 10 + decCharVal c) 0 = n
  rw [foldl_map_inverse 10 decDigitChar decCharVal _
    (fun d hd => decCharVal_decDigitChar d (natToDecAux_mem_lt 80 n d hd))]
  have := foldl_natToDecAux 80 n 0 hn
  simpa using this

theorem two_pow_256_lt : 2 ^ 256 < 10 ^ 80 := by norm_num

/-! ## Structural lemmas about the pipeline -/

theorem flushStep_current (s : ScanState) (stop : Bool) :
    (flushStep s stop).current_block = s.current_block := by
  unfold flushStep; split <;> rfl

theorem flushStep_processed (s : ScanState) (stop : Bool) :
    (flushStep s stop).processed = s.processed := by
  unfold flushStep; split <;> rfl

theorem flushStep_receipt_fetches (s : ScanState) (stop : Bool) :
    (flushStep s stop).receipt_fetches = s.receipt_fetches := by
  unfold flushStep; split <;> rfl

theorem flushStep_fires (s : ScanState) (stop : Bool)
    (h : (decide (MONGO_BATCH_SIZE ≤ s.transfer_storage.length) || stop) = true) :
    flushStep s stop =
      { s with total_transfers := s.total_transfers + s.transfer_storage.length,
               inserts := s.inserts ++ [s.transfer_storage],
               transfer_storage := [] } := by
  unfold flushStep; rw [h]; rfl

theorem flushStep_skips (s : ScanState) (stop : Bool)
    (h : (decide (MONGO_BATCH_SIZE ≤ s.transfer_storage.length) || stop) = false) :
    flushStep s stop = s := by
  unfold flushStep; rw [h]; rfl

theorem scanStepCore_ok (ch : Chain) (s : ScanState) (h : blockOk ch s.current_block) :
    ∃ b recs n, ch.blocks s.current_block = some b ∧
      processTxs (b.timestamp * 1000) b.transactions = Except.ok (recs, n) ∧
      scanStepCore ch s = Except.ok
        { s with transfer_storage := s.transfer_storage ++ recs,
                 receipt_fetches := s.receipt_fetches + n,
                 processed := s.processed ++ [s.current_block],
                 current_block := s.current_block + 1 } := by
  obtain ⟨b, out, hb, hp⟩ := h
  obtain ⟨recs, n⟩ := out
  exact ⟨b, recs, n, hb, hp, by simp [scanStepCore, hb, hp]⟩

theorem scanStepCore_shape (ch : Chain) (s s' : ScanState)
    (h : scanStepCore ch s = Except.ok s') :
    s'.current_block = s.current_block + 1 ∧
    s'.processed = s.processed ++ [s.current_block] ∧
    s'.total_transfers = s.total_transfers ∧
    s'.inserts = s.inserts ∧
    ∃ recs, s'.transfer_storage = s.transfer_storage ++ recs := by
  unfold scanStepCore at h
  split at h
  · exact absurd h (by simp)
  · split at h
    · exact absurd h (by simp)
    · simp only [Except.ok.injEq] at h
      subst h
      exact ⟨rfl, rfl, rfl, rfl, _, rfl⟩

theorem scanStep_ok_of_blockOk (ch : Chain) (s : ScanState)
    (h : blockOk ch s.current_block) :
    ∃ s', scanStep ch s =
        Except.ok (s', decide (stream_stop_block ch.head < s.current_block + 1)) ∧
      s'.current_block = s.current_block + 1 ∧
      s'.processed = s.processed ++ [s.current_block] := by
  obtain ⟨b, recs, n, hb, hp, hcore⟩ := scanStepCore_ok ch s h
  refine ⟨flushStep
      { s with transfer_storage := s.transfer_storage ++ recs,
               receipt_fetches := s.receipt_fetches + n,
               processed := s.processed ++ [s.current_block],
               current_block := s.current_block + 1 }
      (decide (stream_stop_block ch.head < s.current_block + 1)), ?_, ?_, ?_⟩
  · unfold scanStep
    rw [hcore]
  · rw [flushStep_current]
  · rw [flushStep_processed]

theorem scanStep_increment (ch : Chain) (s s' : ScanState) (stop : Bool)
    (h : scanStep ch s = Except.ok (s', stop)) :
    s'.current_block = s.current_block + 1 ∧
    (stop = true ↔ stream_stop_block ch.head < s.current_block + 1) := by
  unfold scanStep at h
  cases hc : scanStepCore ch s with
  | error e => rw [hc] at h; simp at h
  | ok s₁ =>
    rw [hc] at h
    simp only [Except.ok.injEq, Prod.mk.injEq] at h
    obtain ⟨hs', hstop⟩ := h
    obtain ⟨hcur, -⟩ := scanStepCore_shape ch s s₁ hc
    constructor
    · rw [← hs', flushStep_current, hcur]
    · rw [← hstop, hcur, decide_eq_true_iff]

/-! ## Loop lemmas -/

theorem range_map_shift (c k : Nat) :
    [c] ++ (List.range (k + 1)).map (fun i => c + 1 + i)
      = (List.range (k + 1 + 1)).map (fun i => c + i) := by
  rw [← List.range'_eq_map_range, ← List.range'_eq_map_range]
  simp [List.range'_succ]

theorem runAux_succ (ch : Chain) (fuel : Nat) (s : ScanState) :
    runAux ch (fuel + 1) s =
      match scanStep ch s with
      | Except.error e => Except.error e
      | Except.ok (s', stop) => if stop then Except.ok s' else runAux ch fuel s' :=
  rfl

/-- Running the loop from a state whose height is `k` below the stop bound
processes exactly the heights from the current one up to the bound, in order,
and succeeds, provided every block up to the bound is fetchable and
processable and the fuel is adequate. -/
theorem runAux_traverse (ch : Chain) :
    ∀ (k : Nat) (s : ScanState) (fuel : Nat),
      (∀ h, s.current_block ≤ h → h ≤ stream_stop_block ch.head → blockOk ch h) →
      s.current_block + k = stream_stop_block ch.head →
      k < fuel →
      ∃ s', runAux ch fuel s = Except.ok s' ∧
        s'.processed = s.processed ++
          (List.range (k + 1)).map (fun i => s.current_block + i) ∧
        s'.current_block = s.current_block + k + 1 := by
  intro k
  induction k with
  | zero =>
    intro s fuel hok hS hf
    obtain ⟨fuel, rfl⟩ : ∃ f, fuel = f + 1 := ⟨fuel - 1, by omega⟩
    obtain ⟨s', hstep, hcur, hproc⟩ :=
      scanStep_ok_of_blockOk ch s (hok _ le_rfl (by omega))
    have hstop : decide (stream_stop_block ch.head < s.current_block + 1) = true := by
      simp only [decide_eq_true_iff]; omega
    rw [hstop] at hstep
    refine ⟨s', ?_, ?_, by omega⟩
    · rw [runAux_succ, hstep]
      exact rfl
    · rw [hproc]
      simp [List.range_succ]
  | succ k ih =>
    intro s fuel hok hS hf
    obtain ⟨fuel, rfl⟩ : ∃ f, fuel = f + 1 := ⟨fuel - 1, by omega⟩
    obtain ⟨s₁, hstep, hcur, hproc⟩ :=
      scanStep_ok_of_blockOk ch s (hok _ le_rfl (by omega))
    have hstop : decide (stream_stop_block ch.head < s.current_block + 1) = false := by
      simp only [decide_eq_false_iff_not]; omega
    rw [hstop] at hstep
    obtain ⟨s', hrun, hproc', hcur'⟩ := ih s₁ fuel
      (fun h h1 h2 => hok h (by omega) h2) (by omega) (by omega)
    refine ⟨s', ?_, ?_, by omega⟩
    · rw [runAux_succ, hstep]
      exact hrun
    · rw [hproc', hproc, hcur, List.append_assoc, range_map_shift]

theorem flushStep_totalInv (s : ScanState) (stop : Bool) (h : totalInv s) :
    totalInv (flushStep s stop) := by
  unfold totalInv at *
  unfold flushStep
  split
  · simp [h]
  · exact h

theorem scanStep_totalInv (ch : Chain) (s s' : ScanState) (stop : Bool)
    (h : scanStep ch s = Except.ok (s', stop)) (hinv : totalInv s) : totalInv s' := by
  unfold scanStep at h
  cases hc : scanStepCore ch s with
  | error e => rw [hc] at h; simp at h
  | ok s₁ =>
    rw [hc] at h
    simp only [Except.ok.injEq, Prod.mk.injEq] at h
    obtain ⟨hs', -⟩ := h
    obtain ⟨-, -, htot, hins, -⟩ := scanStepCore_shape ch s s₁ hc
    have hinv₁ : totalInv s₁ := by unfold totalInv at *; rw [htot, hins]; exact hinv
    rw [← hs']
    exact flushStep_totalInv _ _ hinv₁

theorem scanStep_total_mono (ch : Chain) (s s' : ScanState) (stop : Bool)
    (h : scanStep ch s = Except.ok (s', stop)) :
    s.total_transfers ≤ s'.total_transfers := by
  unfold scanStep at h
  cases hc : scanStepCore ch s with
  | error e => rw [hc] at h; simp at h
  | ok s₁ =>
    rw [hc] at h
    simp only [Except.ok.injEq, Prod.mk.injEq] at h
    obtain ⟨hs', -⟩ := h
    obtain ⟨-, -, htot, -, -⟩ := scanStepCore_shape ch s s₁ hc
    rw [← hs']
    unfold flushStep
    split
    · simp [htot]
    · simp [htot]

theorem runAux_totalInv (ch : Chain) :
    ∀ (fuel : Nat) (s s' : ScanState), totalInv s →
      runAux ch fuel s = Except.ok s' → totalInv s' := by
  intro fuel
  induction fuel with
  | zero => intro s s' _ h; simp [runAux] at h
  | succ fuel ih =>
    intro s s' hinv h
    rw [runAux_succ] at h
    cases hc : scanStep ch s with
    | error e => rw [hc] at h; simp at h
    | ok out =>
      obtain ⟨s₁, stop⟩ := out
      rw [hc] at h
      cases stop with
      | true =>
        simp at h
        subst h
        exact scanStep_totalInv ch s s₁ true hc hinv
      | false =>
        simp at h
        exact ih s₁ s' (scanStep_totalInv ch s s₁ false hc hinv) h

/-! ## Soundness of the filter and decode stages -/

theorem filterLogs_sound (cs : List String) :
    ∀ (logs out : List Log), filterLogs cs logs = Except.ok out →
      ∀ l ∈ out, l ∈ logs ∧
        (∃ t0 rest, l.topics = t0 :: rest ∧
          to_string_topic t0 = ERC_TRANSFER_TOPIC) ∧
        cs.contains (to_string_address l.address) = true := by
  intro logs
  induction logs with
  | nil =>
    intro out h l hl
    unfold filterLogs at h
    simp only [Except.ok.injEq] at h
    subst h
    simp at hl
  | cons lg rest ih =>
    intro out h l hl
    unfold filterLogs at h
    split at h
    · simp at h
    · rename_i t0 ts htop
      split at h
      · simp at h
      · rename_i tail hrec
        split at h
        · rename_i hcond
          simp only [Except.ok.injEq] at h
          subst h
          simp only [Bool.and_eq_true, beq_iff_eq] at hcond
          rcases List.mem_cons.mp hl with rfl | hl'
          · exact ⟨List.mem_cons_self _ _, ⟨t0, ts, htop, hcond.1⟩, hcond.2⟩
          · obtain ⟨hmem, hA, hB⟩ := ih tail hrec l hl'
            exact ⟨List.mem_cons_of_mem _ hmem, hA, hB⟩
        · simp only [Except.ok.injEq] at h
          subst h
          obtain ⟨hmem, hA, hB⟩ := ih tail hrec l hl
          exact ⟨List.mem_cons_of_mem _ hmem, hA, hB⟩

theorem decodeLogs_sound (tx_to : String) (ts : Nat) :
    ∀ (logs : List Log) (out : List Transfer), decodeLogs tx_to ts logs = Except.ok out →
      ∀ r ∈ out, ∃ l, l ∈ logs ∧ ∃ f t v, parse_log l = some (f, t, v) ∧
        r = { contract := tx_to, from_ := tokenAddrString f,
              to_ := tokenAddrString t, value := natToDec v, timestamp := ts } := by
  intro logs
  induction logs with
  | nil =>
    intro out h r hr
    unfold decodeLogs at h
    simp only [Except.ok.injEq] at h
    subst h
    simp at hr
  | cons lg rest ih =>
    intro out h r hr
    unfold decodeLogs at h
    split at h
    · simp at h
    · rename_i f t v hparse
      split at h
      · simp at h
      · rename_i tail hrec
        simp only [Except.ok.injEq] at h
        subst h
        rcases List.mem_cons.mp hr with rfl | hr'
        · exact ⟨lg, List.mem_cons_self _ _, f, t, v, hparse, rfl⟩
        · obtain ⟨l, hmem, hrest⟩ := ih tail hrec r hr'
          exact ⟨l, List.mem_cons_of_mem _ hmem, hrest⟩

theorem processTx_sound (ts : Nat) (tx : Tx) (recs : List Transfer) (n : Nat)
    (h : processTx ts tx = Except.ok (recs, n)) :
    ∀ r ∈ recs, ∃ l, l ∈ tx.receipt.logs ∧
      (∃ t0 rest, l.topics = t0 :: rest ∧
        to_string_topic t0 = ERC_TRANSFER_TOPIC) ∧
      erc20Contracts.contains (to_string_address l.address) = true := by
  intro r hr
  unfold processTx at h
  split at h
  · simp only [Except.ok.injEq, Prod.mk.injEq] at h
    obtain ⟨h1, -⟩ := h
    subst h1
    simp at hr
  · rename_i a
    split at h
    · split at h
      · simp at h
      · rename_i logs hfl
        split at h
        · simp at h
        · rename_i recs' hdl
          simp only [Except.ok.injEq, Prod.mk.injEq] at h
          obtain ⟨h1, -⟩ := h
          subst h1
          obtain ⟨l, hmem, -⟩ := decodeLogs_sound _ _ logs _ hdl r hr
          obtain ⟨hmem', hA, hB⟩ := filterLogs_sound erc20Contracts tx.receipt.logs logs hfl l hmem
          exact ⟨l, hmem', hA, hB⟩
    · simp only [Except.ok.injEq, Prod.mk.injEq] at h
      obtain ⟨h1, -⟩ := h
      subst h1
      simp at hr

theorem processTxs_sound (ts : Nat) :
    ∀ (txs : List Tx) (recs : List Transfer) (n : Nat),
      processTxs ts txs = Except.ok (recs, n) →
      ∀ r ∈ recs, ∃ tx, tx ∈ txs ∧ ∃ l, l ∈ tx.receipt.logs ∧
        (∃ t0 rest, l.topics = t0 :: rest ∧
          to_string_topic t0 = ERC_TRANSFER_TOPIC) ∧
        erc20Contracts.contains (to_string_address l.address) = true := by
  intro txs
  induction txs with
  | nil =>
    intro recs n h r hr
    unfold processTxs at h
    simp only [Except.ok.injEq, Prod.mk.injEq] at h
    obtain ⟨h1, -⟩ := h
    subst h1
    simp at hr
  | cons tx rest ih =>
    intro recs n h r hr
    unfold processTxs at h
    split at h
    · simp at h
    · rename_i r1 n1 hp1
      split at h
      · simp at h
      · rename_i r2 n2 hp2
        simp only [Except.ok.injEq, Prod.mk.injEq] at h
        obtain ⟨h1, -⟩ := h
        subst h1
        rcases List.mem_append.mp hr with hr1 | hr2
        · obtain ⟨l, hmem, hA, hB⟩ := processTx_sound ts tx r1 n1 hp1 r hr1
          exact ⟨tx, List.mem_cons_self _ _, l, hmem, hA, hB⟩
        · obtain ⟨tx', hmem', hrest⟩ := ih r2 n2 hp2 r hr2
          exact ⟨tx', List.mem_cons_of_mem _ hmem', hrest⟩

/-! ## Exact computation of the single-matching-log scenario -/

theorem to_string_transferTopic : to_string_topic transferTopic = ERC_TRANSFER_TOPIC := by
  decide

theorem parse_log_three (l : Log) (t1 t2 : Nat)
    (htop : l.topics = [transferTopic, t1, t2]) (hdata : l.data.length = 32) :
    parse_log l = some (t1 % 2 ^ 160, t2 % 2 ^ 160, baseBEToNat 256 l.data) := by
  unfold parse_log
  rw [htop]
  simp [hdata]

theorem filterLogs_single (l : Log) (t1 t2 : Nat)
    (htop : l.topics = [transferTopic, t1, t2])
    (hreg : erc20Contracts.contains (to_string_address l.address) = true) :
    filterLogs erc20Contracts [l] = Except.ok [l] := by
  unfold filterLogs
  rw [htop]
  unfold filterLogs
  simp [to_string_transferTopic, hreg]
  simpa using hreg

theorem decodeLogs_single (tx_to : String) (ts : Nat) (l : Log) (t1 t2 : Nat)
    (htop : l.topics = [transferTopic, t1, t2]) (hdata : l.data.length = 32) :
    decodeLogs tx_to ts [l] = Except.ok
      [{ contract := tx_to, from_ := tokenAddrString (t1 % 2 ^ 160),
         to_ := tokenAddrString (t2 % 2 ^ 160),
         value := natToDec (baseBEToNat 256 l.data), timestamp := ts }] := by
  unfold decodeLogs
  rw [parse_log_three l t1 t2 htop hdata]
  unfold decodeLogs
  rfl

theorem processTx_single (ts : Nat) (a : Nat) (l : Log) (t1 t2 : Nat)
    (hcoi : contracts_of_interest.contains (to_string_address a) = true)
    (htop : l.topics = [transferTopic, t1, t2])
    (hreg : erc20Contracts.contains (to_string_address l.address) = true)
    (hdata : l.data.length = 32) :
    processTx ts { to_ := some a, receipt := { logs := [l] } } =
      Except.ok ([{ contract := to_string_address a,
                    from_ := tokenAddrString (t1 % 2 ^ 160),
                    to_ := tokenAddrString (t2 % 2 ^ 160),
                    value := natToDec (baseBEToNat 256 l.data),
                    timestamp := ts }], 1) := by
  unfold processTx
  simp only [hcoi, if_true, filterLogs_single l t1 t2 htop hreg,
    decodeLogs_single (to_string_address a) ts l t1 t2 htop hdata]

/-! ## Claim theorems -/

/-- C1 counterexample: a block with exactly one transaction addressed to a
watched ERC20 registry contract, whose receipt has exactly one log with
topic-0 equal to the Transfer signature hash, topics 1 and 2 the from/to
addresses and the data field the value, but whose emitting address is not a
registry contract: every premise of C1 as stated holds, yet the pipeline
appends no TransferRecord at all (it performs the receipt fetch and filters
the log out). -/
theorem C1_counterexample :
    strangerTx.to_ = some wethAddr ∧
    contracts_of_interest.contains (to_string_address wethAddr) = true ∧
    strangerTx.receipt.logs = [strangerLog] ∧
    strangerLog.topics = [transferTopic, 1, 2] ∧
    strangerLog.data.length = 32 ∧
    processTx 1700000000000 strangerTx = Except.ok ([], 1) :=
  ⟨rfl, by decide, rfl, rfl, by decide, rfl⟩

/-- C1 (amended: the single log must additionally be emitted by a watched
ERC20 registry contract, since the log-stage filter of `main.rs` line 203
also checks the log's own address): for every block containing exactly one
transaction whose `to` address is a watched contract and whose receipt has
exactly one log with topic-0 the Transfer signature hash, topics 1 and 2 the
from/to addresses, the data field the value, and the emitting address a
registry ERC20 contract, one scan step appends exactly one TransferRecord to
the batch buffer whose `contract` is the transaction's recipient address
(lowercase hex), whose `from`/`to`/`value` are the decoded log parameters,
and whose `timestamp` is the block's consensus timestamp times 1000. -/
theorem C1_end_to_end (ch : Chain) (s : ScanState) (b : Block)
    (a t1 t2 : Nat) (l : Log)
    (hblock : ch.blocks s.current_block = some b)
    (htxs : b.transactions = [{ to_ := some a, receipt := { logs := [l] } }])
    (hcoi : contracts_of_interest.contains (to_string_address a) = true)
    (htop : l.topics = [transferTopic, t1, t2])
    (hreg : erc20Contracts.contains (to_string_address l.address) = true)
    (hdata : l.data.length = 32) :
    scanStepCore ch s = Except.ok
      { s with
        transfer_storage :=
          s.transfer_storage ++
            [{ contract := to_string_address a,
               from_ := tokenAddrString (t1 % 2 ^ 160),
               to_ := tokenAddrString (t2 % 2 ^ 160),
               value := natToDec (baseBEToNat 256 l.data),
               timestamp := b.timestamp * 1000 }],
        receipt_fetches := s.receipt_fetches + 1,
        processed := s.processed ++ [s.current_block],
        current_block := s.current_block + 1 } := by
  have hptx := processTx_single (b.timestamp * 1000) a l t1 t2 hcoi htop hreg hdata
  have hptxs : processTxs (b.timestamp * 1000) b.transactions =
      Except.ok ([{ contract := to_string_address a,
                    from_ := tokenAddrString (t1 % 2 ^ 160),
                    to_ := tokenAddrString (t2 % 2 ^ 160),
                    value := natToDec (baseBEToNat 256 l.data),
                    timestamp := b.timestamp * 1000 }], 1) := by
    rw [htxs]
    unfold processTxs
    simp only [hptx]
    unfold processTxs
    simp
  unfold scanStepCore
  simp only [hblock, hptxs]

/-- C1 witness: the amended claim evaluated on the concrete WETH scenario. -/
theorem C1_end_to_end_witness :
    scanStepCore exampleChain initState = Except.ok
      { initState with
        transfer_storage :=
          [{ contract := to_string_address wethAddr,
             from_ := tokenAddrString (1 % 2 ^ 160),
             to_ := tokenAddrString (2 % 2 ^ 160),
             value := natToDec (baseBEToNat 256 exampleLog.data),
             timestamp := 1700000000 * 1000 }],
        receipt_fetches := 1,
        processed := [0],
        current_block := 1 } := by
  have h := C1_end_to_end exampleChain initState exampleBlock wethAddr 1 2 exampleLog
    rfl rfl (by decide) rfl (by decide) (by decide)
  simpa [initState, exampleBlock] using h

/-- C2: decoding round-trips on synthetic Transfer logs: the pipeline's
decoder applied to an encoded `Transfer(from, to, value)` log yields exactly
one record carrying the rendered `from`/`to` and `value` as a base-10 decimal
string, and the renderings lose nothing: they parse back to the original
numbers, for any value up to the maximum 256-bit integer. -/
theorem C2_decode_roundtrip (f t v : Nat) (tx_to : String) (ts : Nat)
    (hf : f < 2 ^ 160) (ht : t < 2 ^ 160) (hv : v < 2 ^ 256) :
    decodeLogs tx_to ts [encodeTransferLog f t v] =
      Except.ok [{ contract := tx_to, from_ := tokenAddrString f,
                   to_ := tokenAddrString t, value := natToDec v,
                   timestamp := ts }] ∧
    hexStringToNat (tokenAddrString f) = f ∧
    hexStringToNat (tokenAddrString t) = t ∧
    decStringToNat (natToDec v) = v := by
  have h256 : (256 : Nat) ^ 32 = 2 ^ 256 := by norm_num
  have hval : baseBEToNat 256 (natToBaseBE 256 32 v) = v := by
    unfold baseBEToNat
    have := foldl_natToBaseBE 256 32 0 v (by rw [h256]; exact hv)
    simpa using this
  refine ⟨?_, ?_, ?_, ?_⟩
  · have hd := decodeLogs_single tx_to ts (encodeTransferLog f t v) f t rfl
      (natToBaseBE_length 256 32 v)
    rw [hd]
    simp only [encodeTransferLog, hval, Nat.mod_eq_of_lt hf, Nat.mod_eq_of_lt ht]
  · exact hexStringToNat_hexFixed 40 f (by rw [show (16:Nat) ^ 40 = 2 ^ 160 from by norm_num]; exact hf)
  · exact hexStringToNat_hexFixed 40 t (by rw [show (16:Nat) ^ 40 = 2 ^ 160 from by norm_num]; exact ht)
  · exact decStringToNat_natToDec v (lt_trans hv two_pow_256_lt)

/-- C2 witness: the round trip at the maximum 256-bit value. -/
theorem C2_decode_roundtrip_witness :
    decodeLogs "0xc99a6a985ed2cac1ef41640596c5a5f9f4e19ef5" 1000
        [encodeTransferLog 1 2 (2 ^ 256 - 1)] =
      Except.ok [{ contract := "0xc99a6a985ed2cac1ef41640596c5a5f9f4e19ef5",
                   from_ := tokenAddrString 1, to_ := tokenAddrString 2,
                   value := natToDec (2 ^ 256 - 1), timestamp := 1000 }] ∧
    decStringToNat (natToDec (2 ^ 256 - 1)) = 2 ^ 256 - 1 := by
  have h := C2_decode_roundtrip 1 2 (2 ^ 256 - 1)
    "0xc99a6a985ed2cac1ef41640596c5a5f9f4e19ef5" 1000
    (by norm_num) (by norm_num) (by norm_num)
  exact ⟨h.1, h.2.2.2⟩

/-- C3: for a fixed chain head `H ≥ 50` (a u64), the stop bound is `H - 50`;
the scan from height 0 processes exactly the heights `0..=H-50`, that is
`H - 49` of them, never one beyond the bound; each loop iteration increments
the current height by exactly 1, and the iteration stops exactly when the
incremented height exceeds the bound. -/
theorem C3_scan_bounds (ch : Chain) (hH : ch.head < 2 ^ 64) (h50 : 50 ≤ ch.head)
    (hok : ∀ h, h ≤ ch.head - 50 → blockOk ch h) :
    stream_stop_block ch.head = ch.head - 50 ∧
    (∃ s', runScan ch = Except.ok s' ∧
      s'.processed = List.range (ch.head - 50 + 1) ∧
      s'.processed.length = ch.head - 49 ∧
      (∀ h ∈ s'.processed, h ≤ ch.head - 50) ∧
      s'.current_block = ch.head - 50 + 1) ∧
    (∀ t t' stop, scanStep ch t = Except.ok (t', stop) →
      t'.current_block = t.current_block + 1 ∧
      (stop = true ↔ stream_stop_block ch.head < t.current_block + 1)) := by
  have hstop : stream_stop_block ch.head = ch.head - 50 := by
    unfold stream_stop_block u64sub
    have h64 : (2:Nat) ^ 64 = 18446744073709551616 := by norm_num
    rw [h64] at hH ⊢
    omega
  refine ⟨hstop, ?_, fun t t' stop h => scanStep_increment ch t t' stop h⟩
  obtain ⟨s', hrun, hproc, hcur⟩ := runAux_traverse ch (ch.head - 50) initState
    (stream_stop_block ch.head + 2)
    (fun h _ h2 => hok h (by rw [hstop] at h2; exact h2))
    (by rw [hstop]; simp [initState])
    (by rw [hstop]; omega)
  have hproc' : s'.processed = List.range (ch.head - 50 + 1) := by
    rw [hproc]
    simp [initState]
  refine ⟨s', hrun, hproc', ?_, ?_, ?_⟩
  · rw [hproc', List.length_range]
    omega
  · intro h hmem
    rw [hproc', List.mem_range] at hmem
    omega
  · rw [hcur]
    simp [initState]

/-- C3 witness: head 1000 yields stop bound 950 and exactly the heights
`0..=950` processed (951 iterations). -/
theorem C3_scan_bounds_witness :
    stream_stop_block chain1000.head = 950 ∧
    (∃ s', runScan chain1000 = Except.ok s' ∧
      s'.processed = List.range 951 ∧
      s'.processed.length = 951 ∧
      (∀ h ∈ s'.processed, h ≤ 950) ∧
      s'.current_block = 951) ∧
    (∀ t t' stop, scanStep chain1000 t = Except.ok (t', stop) →
      t'.current_block = t.current_block + 1 ∧
      (stop = true ↔ stream_stop_block chain1000.head < t.current_block + 1)) := by
  have h := C3_scan_bounds chain1000 (by norm_num [chain1000]) (by norm_num [chain1000])
    (fun h _ => ⟨{ timestamp := 0, transactions := [] }, ([], 0), rfl, rfl⟩)
  have e2 : chain1000.head - 50 + 1 = 951 := by norm_num [chain1000]
  have e3 : chain1000.head - 49 = 951 := by norm_num [chain1000]
  have e1 : chain1000.head - 50 = 950 := by norm_num [chain1000]
  rw [e2, e3, e1] at h
  exact h

/-- C4: a TransferRecord is only ever produced from a receipt log whose
topic-0 renders to the Transfer signature hash and whose emitting address
(lowercase hex) is one of the registry contracts carrying the ERC20 standard;
no record arises from any other log. -/
theorem C4_records_only_from_matched_logs (ts : Nat) (txs : List Tx)
    (recs : List Transfer) (n : Nat)
    (h : processTxs ts txs = Except.ok (recs, n)) :
    ∀ r ∈ recs, ∃ tx, tx ∈ txs ∧ ∃ l, l ∈ tx.receipt.logs ∧
      (∃ t0 rest, l.topics = t0 :: rest ∧
        to_string_topic t0 = ERC_TRANSFER_TOPIC) ∧
      erc20Contracts.contains (to_string_address l.address) = true :=
  processTxs_sound ts txs recs n h

/-- C4 witness: the invariant evaluated on the concrete WETH block. -/
theorem C4_records_only_from_matched_logs_witness :
    ∃ recs n, processTxs 1700000000000 [exampleTx] = Except.ok (recs, n) ∧
      ∀ r ∈ recs, ∃ tx, tx ∈ [exampleTx] ∧ ∃ l, l ∈ tx.receipt.logs ∧
        (∃ t0 rest, l.topics = t0 :: rest ∧
          to_string_topic t0 = ERC_TRANSFER_TOPIC) ∧
        erc20Contracts.contains (to_string_address l.address) = true :=
  ⟨_, _, rfl, C4_records_only_from_matched_logs _ _ _ _ rfl⟩

/-- C5 (code behavior at the claimed input): a receipt log with an empty
topics array reaching the log filter makes the pipeline panic with an
out-of-bounds index (the filter closure of `main.rs` line 202 evaluates
`x.topics[0]` unguarded); it is not rejected as a recoverable
MalformedLogError as the claim requires. -/
theorem C5_empty_topics_crash :
    processTx 1700000000000 emptyTopicsTx =
      Except.error "index out of bounds: the len is 0 but the index is 0" :=
  rfl

/-- C6 counterexample: a run whose final flush fires on an empty buffer still
issues a bulk-insert call, with the empty buffer as payload (`inserts` gains
the entry `[]`), contradicting "no bulk-insert call is issued". -/
theorem C6_counterexample :
    runScan chainEmpty50 = Except.ok
      { current_block := 1, transfer_storage := [], total_transfers := 0,
        inserts := [[]], receipt_fetches := 0, processed := [0] } :=
  rfl

/-- C6 (amended: the flush branch of `main.rs` lines 236-242 runs
unconditionally once its predicate fires, so flushing an empty buffer is a
state-level no-op that still issues one bulk-insert call carrying the empty
buffer; `total_transfers` is unchanged and the buffer stays empty; and
flushing a buffer of size exactly `MONGO_BATCH_SIZE` clears it to size 0). -/
theorem C6_flush_empty_and_batch (s : ScanState) :
    (s.transfer_storage = [] →
      flushStep s true = { s with inserts := s.inserts ++ [[]] }) ∧
    (∀ stop, s.transfer_storage.length = MONGO_BATCH_SIZE →
      (flushStep s stop).transfer_storage = []) := by
  constructor
  · intro hempty
    rw [flushStep_fires s true (by simp)]
    simp [hempty]
  · intro stop hlen
    rw [flushStep_fires s stop (by simp [hlen])]

/-- C6 witness: the amended claim at the empty initial buffer and at a buffer
of exactly `MONGO_BATCH_SIZE` records. -/
theorem C6_flush_empty_and_batch_witness :
    flushStep initState true = { initState with inserts := [[]] } ∧
    (flushStep { initState with transfer_storage := fullBuffer }
        true).transfer_storage = [] := by
  constructor
  · have h := (C6_flush_empty_and_batch initState).1 rfl
    simpa [initState] using h
  · exact (C6_flush_empty_and_batch _).2 true (by simp [fullBuffer])

/-- C7: whenever the flush predicate fires, the store's bulk insert is called
exactly once with the whole buffer, `total_transfers` absorbs the buffer
length and the buffer is cleared; and the scan's entire behaviour is
independent of whether the bulk inserts succeed or fail (the code discards
the result), so an insert failure never aborts the scan. -/
theorem C7_flush_once_clear_continue :
    (∀ s stop,
      (decide (MONGO_BATCH_SIZE ≤ s.transfer_storage.length) || stop) = true →
      flushStep s stop =
        { s with total_transfers := s.total_transfers + s.transfer_storage.length,
                 inserts := s.inserts ++ [s.transfer_storage],
                 transfer_storage := [] }) ∧
    (∀ head blocks f g fuel s,
      runAux { head := head, blocks := blocks, insertOk := f } fuel s =
        runAux { head := head, blocks := blocks, insertOk := g } fuel s) := by
  constructor
  · exact flushStep_fires
  · intro head blocks f g fuel
    induction fuel with
    | zero => intro s; rfl
    | succ fuel ih =>
      intro s
      rw [runAux_succ, runAux_succ]
      have hs : scanStep { head := head, blocks := blocks, insertOk := f } s =
          scanStep { head := head, blocks := blocks, insertOk := g } s := rfl
      rw [← hs]
      cases scanStep { head := head, blocks := blocks, insertOk := f } s with
      | error e => rfl
      | ok out =>
        obtain ⟨s', stop⟩ := out
        cases stop with
        | true => rfl
        | false => simpa using ih s'

/-- C7 witness: a full-buffer flush, and a two-iteration run compared under
an always-succeeding and an always-failing store. -/
theorem C7_flush_once_clear_continue_witness :
    flushStep { initState with transfer_storage := fullBuffer } false =
      { initState with
        total_transfers := MONGO_BATCH_SIZE,
        inserts := [fullBuffer],
        transfer_storage := [] } ∧
    runAux { head := 50, blocks := fun _ => some { timestamp := 0, transactions := [] },
             insertOk := fun _ => true } 2 initState =
      runAux { head := 50, blocks := fun _ => some { timestamp := 0, transactions := [] },
               insertOk := fun _ => false } 2 initState := by
  have hlen : fullBuffer.length = MONGO_BATCH_SIZE := List.length_replicate _ _
  constructor
  · have h := C7_flush_once_clear_continue.1
      { initState with transfer_storage := fullBuffer } false
      (by show (decide (MONGO_BATCH_SIZE ≤ fullBuffer.length) || false) = true
          rw [hlen]
          simp)
    rw [h]
    simp [hlen, initState]
  · exact C7_flush_once_clear_continue.2 50 _ _ _ 2 initState

/-- C8: a transaction whose `to` address is absent or not in the watched
allow-list yields no receipt fetch (count 0) and no TransferRecord; the
transaction-stage filter short-circuits before any log inspection. -/
theorem C8_short_circuit (ts : Nat) (tx : Tx)
    (h : ∀ a, tx.to_ = some a →
      contracts_of_interest.contains (to_string_address a) = false) :
    processTx ts tx = Except.ok ([], 0) := by
  unfold processTx
  cases hto : tx.to_ with
  | none => rfl
  | some a =>
    simp only [h a hto]
    simp

/-- C8 witness: a transaction to an unwatched address. -/
theorem C8_short_circuit_witness :
    processTx 1000 { to_ := some 57005, receipt := { logs := [] } } =
      Except.ok ([], 0) := by
  refine C8_short_circuit 1000 _ ?_
  intro a ha
  simp only [Option.some.injEq] at ha
  subst ha
  decide

/-- C9: `total_transfers` is incremented by exactly the buffer length at each
firing flush; after any completed run it equals the sum of the lengths of all
issued bulk-insert payloads (the buffer lengths across all flushes, not the
store-confirmed counts); and it never decreases across a loop iteration. -/
theorem C9_total_transfers_accounting (ch : Chain) (s' : ScanState)
    (hrun : runScan ch = Except.ok s') :
    s'.total_transfers = (s'.inserts.map List.length).sum ∧
    (∀ s stop,
      (decide (MONGO_BATCH_SIZE ≤ s.transfer_storage.length) || stop) = true →
      (flushStep s stop).total_transfers =
        s.total_transfers + s.transfer_storage.length) ∧
    (∀ t t' stop, scanStep ch t = Except.ok (t', stop) →
      t.total_transfers ≤ t'.total_transfers) := by
  refine ⟨runAux_totalInv ch _ initState s' rfl hrun, ?_, ?_⟩
  · intro s stop h
    rw [flushStep_fires s stop h]
  · intro t t' stop h
    exact scanStep_total_mono ch t t' stop h

/-- C9 witness: a one-iteration run against a store that rejects every
insert; the counter still equals the summed payload lengths. -/
theorem C9_total_transfers_accounting_witness :
    ∃ s', runScan chainC9 = Except.ok s' ∧
      s'.total_transfers = (s'.inserts.map List.length).sum :=
  ⟨_, rfl, (C9_total_transfers_accounting chainC9 _ rfl).1⟩

/-- C10: the stop bound is computed as `head - 50` in unchecked u64
arithmetic: it equals `head - 50` only under `head ≥ 50`; for `head < 50` the
subtraction wraps modulo `2^64` to `head + 2^64 - 50`, which is never 0. -/
theorem C10_stop_bound_underflow (head : Nat) (hH : head < 2 ^ 64) :
    (50 ≤ head → stream_stop_block head = head - 50) ∧
    (head < 50 → stream_stop_block head = head + 2 ^ 64 - 50 ∧
      stream_stop_block head ≠ 0) := by
  unfold stream_stop_block u64sub
  have h64 : (2:Nat) ^ 64 = 18446744073709551616 := by norm_num
  rw [h64] at hH ⊢
  constructor
  · intro h
    omega
  · intro h
    constructor
    · omega
    · omega

/-- C10 witness: head 7 wraps to a huge nonzero stop bound. -/
theorem C10_stop_bound_underflow_witness :
    stream_stop_block 7 = 7 + 2 ^ 64 - 50 ∧ stream_stop_block 7 ≠ 0 :=
  (C10_stop_bound_underflow 7 (by norm_num)).2 (by norm_num)
